import Mathlib

/-!
Verification of the payload-to-recipient resolution logic of the voice-agent
email backend (`src/main.py`).

The embedding is shallow: JSON values decoded from a request body are modelled
by the inductive type `JValue`; Python's dynamic attribute/subscript behaviour
(`dict.get`, `x[0]`, `x[k]`) is modelled by `Except PyErr` computations whose
`error` constructor stands for a raised Python exception; a `try/except` block
is a catch on that monad.  `json.loads` is modelled by a fueled
recursive-descent parser (`json_loads`) and `json.dumps` by `json_dumps`
(Python's default separators and `ensure_ascii` escaping; JSON floats are not
modelled — no claim involves a float literal).  The regex scan
`re.search(r'[a-zA-Z0-9._%+-]+@[a-zA-Z0-9.-]+\.[a-zA-Z]\x7b2,\x7d', text)` of
`extract_email_from_text` is modelled by a direct matcher implementing
Python's leftmost-start, greedy-with-backtracking semantics for exactly this
pattern.  The SMTP transport, HTML templates and console printing are external
side effects outside the resolver core and are not modelled; an endpoint's
result is the structured decision it returns (`MidCallOutcome`,
`WebhookOutcome`) or the Python exception it raises.
-/

set_option maxRecDepth 100000

namespace VoiceAgent

mutual

/-- A JSON value as produced by Python's `json.loads`: `None`, `bool`, integer
numbers, `str`, `list` and `dict` (insertion-ordered, string keys). -/
inductive JValue where
  | null
  | bool (b : Bool)
  | num (n : Int)
  | str (s : String)
  | arr (xs : JList)
  | obj (fs : JFields)

/-- A list of JSON values (a Python `list`). -/
inductive JList where
  | nil
  | cons (hd : JValue) (tl : JList)

/-- Ordered fields of a JSON object (a Python `dict` in insertion order). -/
inductive JFields where
  | nil
  | cons (key : String) (val : JValue) (tl : JFields)

end

/-- Build a `JList` from a Lean list. -/
def jlist : List JValue → JList
  | [] => .nil
  | x :: xs => .cons x (jlist xs)

/-- Build `JFields` from a Lean association list. -/
def jfields : List (String × JValue) → JFields
  | [] => .nil
  | (k, v) :: xs => .cons k v (jfields xs)

/-- Object literal helper. -/
def jobj (l : List (String × JValue)) : JValue := .obj (jfields l)

/-- Array literal helper. -/
def jarr (l : List JValue) : JValue := .arr (jlist l)

/-- String literal helper. -/
def jstr (s : String) : JValue := .str s

/-- Key lookup in a JSON object, first binding wins (keys produced by
`json.loads` are unique). -/
def JFields.lookup : JFields → String → Option JValue
  | .nil, _ => none
  | .cons k v tl, key => if k = key then some v else tl.lookup key

/-- Emptiness test for `JFields`. -/
def JFields.isNil : JFields → Bool
  | .nil => true
  | .cons _ _ _ => false

/-- Emptiness test for `JList`. -/
def JList.isNil : JList → Bool
  | .nil => true
  | .cons _ _ => false

/-- Python truthiness of a JSON value: `None`, `False`, `0`, `""`, `[]` and
`\x7b\x7d` are falsy, everything else truthy. -/
def truthy : JValue → Bool
  | .null => false
  | .bool b => b
  | .num n => n != 0
  | .str s => s != ""
  | .arr xs => !xs.isNil
  | .obj fs => !fs.isNil

/-- Shape test: is this value a JSON object (a Python `dict`)? -/
def JValue.isObj : JValue → Bool
  | .obj _ => true
  | _ => false

/-- Shape test: is this value a JSON string? -/
def JValue.isStr : JValue → Bool
  | .str _ => true
  | _ => false

/-- The Python exceptions the resolver code can raise. `jsonDecodeError`
stands for `json.JSONDecodeError` (a `ValueError`). -/
inductive PyErr where
  | attributeError
  | typeError
  | keyError
  | indexError
  | jsonDecodeError
deriving DecidableEq

/-- Python `v.get(key, default)`: defined on `dict` only, any other receiver
raises `AttributeError`.  When the key is present its stored value is
returned, even when that value is `None`. -/
def pyGet (v : JValue) (key : String) (default : JValue) : Except PyErr JValue :=
  match v with
  | .obj fs => .ok ((fs.lookup key).getD default)
  | _ => .error .attributeError

/-- Python `v.get(key)` — the one-argument form defaults to `None`. -/
def pyGetN (v : JValue) (key : String) : Except PyErr JValue :=
  pyGet v key .null

/-- Python subscript `v[0]`: first element of a list, first character of a
string, `KeyError` on a string-keyed dict, `TypeError` otherwise. -/
def pySub0 (v : JValue) : Except PyErr JValue :=
  match v with
  | .arr (.cons x _) => .ok x
  | .arr .nil => .error .indexError
  | .str s =>
    match s.toList with
    | c :: _ => .ok (.str (String.mk [c]))
    | [] => .error .indexError
  | .obj _ => .error .keyError
  | _ => .error .typeError

/-- Python subscript `v[key]` with a string key. -/
def pySubStr (v : JValue) (key : String) : Except PyErr JValue :=
  match v with
  | .obj fs =>
    match fs.lookup key with
    | some x => .ok x
    | none => .error .keyError
  | _ => .error .typeError

/-- Python `v == s` for a string literal `s`: true only when `v` is that
string. -/
def pyEqStr (v : JValue) (s : String) : Bool :=
  match v with
  | .str t => t == s
  | _ => false

/-! ## Email regex scan

`extract_email_from_text` applies
`re.search(r'[a-zA-Z0-9._%+-]+@[a-zA-Z0-9.-]+\.[a-zA-Z]\x7b2,\x7d', text)`
(`src/main.py:81-86`).  `re.search` tries each start position left to right
and at a position matches greedily with backtracking.  Because `@` is not in
the local-part class, only the maximal local run can precede the `@`; because
`.` and letters are in the domain class, the greedy domain backtracks to the
rightmost dot that is followed by at least two letters.  `matchAt` implements
the match attempt at one start position and `searchEmail` the left-to-right
scan. -/

/-- Characters of the local part class `[a-zA-Z0-9._%+-]` (ASCII, as Python
`re` on `str` with this literal class). -/
def localChar (c : Char) : Bool :=
  c.isAlpha || c.isDigit || c == '.' || c == '_' || c == '%' || c == '+' || c == '-'

/-- Characters of the domain class `[a-zA-Z0-9.-]`. -/
def domainChar (c : Char) : Bool :=
  c.isAlpha || c.isDigit || c == '.' || c == '-'

/-- Split the run of domain characters after the `@` at the rightmost dot that
is followed by at least two letters: greedy `[a-zA-Z0-9.-]+` backtracking
before `\.` and `[a-zA-Z]\x7b2,\x7d`.  Returns the domain part before the
chosen dot (possibly empty, rejected by the caller) and the greedy TLD run. -/
def domSplit : List Char → Option (List Char × List Char)
  | [] => none
  | c :: cs =>
    match domSplit cs with
    | some (d, t) => some (c :: d, t)
    | none =>
      if c == '.' then
        let t := cs.takeWhile (fun ch => ch.isAlpha)
        if 2 ≤ t.length then some ([], t) else none
      else none

/-- Attempt of the email pattern match anchored at the head of `cs`. -/
def matchAt (cs : List Char) : Option (List Char) :=
  let l := cs.takeWhile localChar
  if l.isEmpty then none
  else
    match cs.dropWhile localChar with
    | a :: rest =>
      if a = '@' then
        match domSplit (rest.takeWhile domainChar) with
        | some (d, t) => if d.isEmpty then none else some (l ++ '@' :: (d ++ '.' :: t))
        | none => none
      else none
    | [] => none

/-- Left-to-right scan over start positions, first success wins — the
semantics of `re.search`. -/
def searchEmail : List Char → Option (List Char)
  | [] => none
  | c :: cs =>
    match matchAt (c :: cs) with
    | some m => some m
    | none => searchEmail cs

/-- Model of `extract_email_from_text(text)` (`src/main.py:81-86`): `None` on
a falsy (empty) string, else the first regex match. -/
def extract_email_from_text (text : String) : Option String :=
  if text == "" then none
  else (searchEmail text.toList).map String.mk

/-- Model of the call `extract_email_from_text(transcript)` where the
argument is an arbitrary JSON value: `if not text` short-circuits falsy
values to `None`; a truthy non-string reaches `re.search`, which raises
`TypeError`. -/
def pyScanText (text : JValue) : Except PyErr (Option String) :=
  if truthy text then
    match text with
    | .str s => .ok (extract_email_from_text s)
    | _ => .error .typeError
  else .ok none

/-! ## Model of `json.loads`

A fueled recursive-descent parser for the JSON accepted by Python's
`json.loads` with two deliberate reductions: numbers are restricted to
integer literals (floats are not representable in the embedding; no claim
involves one) and `\uXXXX` escapes are decoded without surrogate pairing.
`.error .jsonDecodeError` models a raised `json.JSONDecodeError`. -/

/-- Skip JSON whitespace. -/
def skipWs : List Char → List Char
  | [] => []
  | c :: cs => if c == ' ' || c == '\t' || c == '\n' || c == '\r' then skipWs cs else c :: cs

/-- Value of one hex digit. -/
def hexVal (c : Char) : Option Nat :=
  if c.isDigit then some (c.toNat - 48)
  else if 'a' ≤ c && c ≤ 'f' then some (c.toNat - 87)
  else if 'A' ≤ c && c ≤ 'F' then some (c.toNat - 55)
  else none

/-- Parse the body of a JSON string after the opening quote, returning the
decoded characters and the remainder after the closing quote. -/
def parseStrChars : List Char → Except PyErr (List Char × List Char)
  | [] => .error .jsonDecodeError
  | '"' :: rest => .ok ([], rest)
  | '\\' :: 'u' :: h1 :: h2 :: h3 :: h4 :: rest =>
    match hexVal h1, hexVal h2, hexVal h3, hexVal h4 with
    | some a, some b, some c, some d =>
      match parseStrChars rest with
      | .ok (acc, rem) => .ok (Char.ofNat (a * 4096 + b * 256 + c * 16 + d) :: acc, rem)
      | .error e => .error e
    | _, _, _, _ => .error .jsonDecodeError
  | '\\' :: e :: rest =>
    let esc : Option Char :=
      if e == '"' then some '"'
      else if e == '\\' then some '\\'
      else if e == '/' then some '/'
      else if e == 'n' then some '\n'
      else if e == 't' then some '\t'
      else if e == 'r' then some '\r'
      else if e == 'b' then some (Char.ofNat 8)
      else if e == 'f' then some (Char.ofNat 12)
      else none
    match esc with
    | some c =>
      match parseStrChars rest with
      | .ok (acc, rem) => .ok (c :: acc, rem)
      | .error err => .error err
    | none => .error .jsonDecodeError
  | c :: rest =>
    if c.toNat < 32 then .error .jsonDecodeError
    else
      match parseStrChars rest with
      | .ok (acc, rem) => .ok (c :: acc, rem)
      | .error e => .error e

/-- Decimal value of a digit run. -/
def digitsVal (cs : List Char) : Nat :=
  cs.foldl (fun a c => a * 10 + (c.toNat - 48)) 0

/-- Does the remainder continue a float literal (`.`/`e`/`E`)?  Floats are
outside the embedding and rejected. -/
def floatCont : List Char → Bool
  | c :: _ => c == '.' || c == 'e' || c == 'E'
  | [] => false

/-- Parse an integer JSON number literal. -/
def parseNumber (cs : List Char) : Except PyErr (JValue × List Char) :=
  match cs with
  | '-' :: rest =>
    let ds := rest.takeWhile Char.isDigit
    if ds.isEmpty then .error .jsonDecodeError
    else
      let rem := rest.dropWhile Char.isDigit
      if floatCont rem then .error .jsonDecodeError
      else .ok (.num (-(digitsVal ds : Int)), rem)
  | _ =>
    let ds := cs.takeWhile Char.isDigit
    if ds.isEmpty then .error .jsonDecodeError
    else
      let rem := cs.dropWhile Char.isDigit
      if floatCont rem then .error .jsonDecodeError
      else .ok (.num (digitsVal ds : Int), rem)

mutual

/-- Parse one JSON value (fueled; callers supply fuel exceeding the input
length, which suffices because every recursive call consumes input). -/
def parseVal : Nat → List Char → Except PyErr (JValue × List Char)
  | 0, _ => .error .jsonDecodeError
  | fuel + 1, cs =>
    match skipWs cs with
    | [] => .error .jsonDecodeError
    | '"' :: rest =>
      match parseStrChars rest with
      | .ok (acc, rem) => .ok (.str (String.mk acc), rem)
      | .error e => .error e
    | '\x7b' :: rest =>
      match skipWs rest with
      | '\x7d' :: rem => .ok (.obj .nil, rem)
      | other =>
        match parseFields fuel other with
        | .ok (fs, rem) => .ok (.obj fs, rem)
        | .error e => .error e
    | '[' :: rest =>
      match skipWs rest with
      | ']' :: rem => .ok (.arr .nil, rem)
      | other =>
        match parseElems fuel other with
        | .ok (xs, rem) => .ok (.arr xs, rem)
        | .error e => .error e
    | 't' :: 'r' :: 'u' :: 'e' :: rest => .ok (.bool true, rest)
    | 'f' :: 'a' :: 'l' :: 's' :: 'e' :: rest => .ok (.bool false, rest)
    | 'n' :: 'u' :: 'l' :: 'l' :: rest => .ok (.null, rest)
    | c :: rest =>
      if c == '-' || c.isDigit then parseNumber (c :: rest) else .error .jsonDecodeError

/-- Parse the members of a JSON object up to and including the closing
brace. -/
def parseFields : Nat → List Char → Except PyErr (JFields × List Char)
  | 0, _ => .error .jsonDecodeError
  | fuel + 1, cs =>
    match cs with
    | '"' :: rest =>
      match parseStrChars rest with
      | .ok (kcs, rem) =>
        match skipWs rem with
        | ':' :: rem2 =>
          match parseVal fuel rem2 with
          | .ok (v, rem3) =>
            match skipWs rem3 with
            | ',' :: rem4 =>
              match parseFields fuel (skipWs rem4) with
              | .ok (tl, rem5) => .ok (.cons (String.mk kcs) v tl, rem5)
              | .error e => .error e
            | '\x7d' :: rem4 => .ok (.cons (String.mk kcs) v .nil, rem4)
            | _ => .error .jsonDecodeError
          | .error e => .error e
        | _ => .error .jsonDecodeError
      | .error e => .error e
    | _ => .error .jsonDecodeError

/-- Parse the elements of a JSON array up to and including the closing
bracket. -/
def parseElems : Nat → List Char → Except PyErr (JList × List Char)
  | 0, _ => .error .jsonDecodeError
  | fuel + 1, cs =>
    match parseVal fuel cs with
    | .ok (v, rem) =>
      match skipWs rem with
      | ',' :: rem2 =>
        match parseElems fuel rem2 with
        | .ok (tl, rem3) => .ok (.cons v tl, rem3)
        | .error e => .error e
      | ']' :: rem2 => .ok (.cons v .nil, rem2)
      | _ => .error .jsonDecodeError
    | .error e => .error e

end

/-- Model of `json.loads(s)`: parse one value, then require only whitespace
to remain. -/
def json_loads (s : String) : Except PyErr JValue :=
  match parseVal (2 * s.length + 2) s.toList with
  | .ok (v, rem) =>
    match skipWs rem with
    | [] => .ok v
    | _ => .error .jsonDecodeError
  | .error e => .error e

/-! ## Model of `json.dumps` (default arguments) -/

/-- Lowercase hex digit. -/
def hexDigit (n : Nat) : Char :=
  if n < 10 then Char.ofNat (48 + n) else Char.ofNat (87 + n)

/-- Four lowercase hex digits, as in Python's `\uXXXX` escapes. -/
def hex4 (n : Nat) : String :=
  String.mk [hexDigit (n / 4096 % 16), hexDigit (n / 256 % 16),
             hexDigit (n / 16 % 16), hexDigit (n % 16)]

/-- Escape one character of a JSON string the way `json.dumps` does with its
default `ensure_ascii=True`: backslash, quote and the short control escapes,
`\uXXXX` for other characters outside `0x20`–`0x7e` (characters above
`0xffff`, which Python encodes as surrogate pairs, do not occur in the
payloads considered). -/
def escapeChar (c : Char) : String :=
  if c == '"' then "\\\""
  else if c == '\\' then "\\\\"
  else if c == '\n' then "\\n"
  else if c == '\t' then "\\t"
  else if c == '\r' then "\\r"
  else if c.toNat == 8 then "\\b"
  else if c.toNat == 12 then "\\f"
  else if c.toNat < 32 || 127 ≤ c.toNat then "\\u" ++ hex4 c.toNat
  else String.mk [c]

/-- Escape a whole string. -/
def jsonEscape (s : String) : String :=
  String.join (s.toList.map escapeChar)

mutual

/-- Model of `json.dumps(v)` with Python's default separators `", "` and
`": "`. -/
def json_dumps : JValue → String
  | .null => "null"
  | .bool true => "true"
  | .bool false => "false"
  | .num n => toString n
  | .str s => "\"" ++ jsonEscape s ++ "\""
  | .arr xs => "[" ++ dumpsElems xs ++ "]"
  | .obj fs => "\x7b" ++ dumpsFields fs ++ "\x7d"

/-- Comma-joined array elements. -/
def dumpsElems : JList → String
  | .nil => ""
  | .cons x .nil => json_dumps x
  | .cons x (.cons y tl) => json_dumps x ++ ", " ++ dumpsElems (.cons y tl)

/-- Comma-joined object members. -/
def dumpsFields : JFields → String
  | .nil => ""
  | .cons k v .nil => "\"" ++ jsonEscape k ++ "\": " ++ json_dumps v
  | .cons k v (.cons k2 v2 tl) =>
      "\"" ++ jsonEscape k ++ "\": " ++ json_dumps v ++ ", "
        ++ dumpsFields (.cons k2 v2 tl)

end

/-! ## `extract_tool_call_args` (`src/main.py:61-78`) -/

/-- The line `tool_calls = message.get("toolCalls") or message.get("toolCallList") or []`
(`src/main.py:70`): Python `or` returns its first truthy operand, else the
last one, evaluating lazily. -/
def toolCallsOf (message : JValue) : Except PyErr JValue := do
  let tc1 ← pyGetN message "toolCalls"
  if truthy tc1 then pure tc1
  else do
    let tc2 ← pyGetN message "toolCallList"
    pure (if truthy tc2 then tc2 else .arr .nil)

/-- The body of the `if tool_calls:` branch (`src/main.py:73-74`):
`args = tool_calls[0].get("function", \x7b\x7d).get("arguments", \x7b\x7d)`
then `json.loads(args) if isinstance(args, str) else args`. -/
def firstEntryArgs (tool_calls : JValue) : Except PyErr JValue := do
  let first ← pySub0 tool_calls
  let fn ← pyGet first "function" (.obj .nil)
  let args ← pyGet fn "arguments" (.obj .nil)
  match args with
  | .str s => json_loads s
  | _ => pure args

/-- The `try` body of `extract_tool_call_args` (`src/main.py:66-74`), before
the `except` clause: `some args` when the tool-call branch is taken, `none`
for the fall-through `return None`, `error` for a raised exception. -/
def extract_tool_call_args_checked (payload : JValue) : Except PyErr (Option JValue) := do
  let message ← pyGet payload "message" (.obj .nil)
  let tool_calls ← toolCallsOf message
  if truthy tool_calls then do
    let a ← firstEntryArgs tool_calls
    pure (some a)
  else
    pure none

/-- Model of `extract_tool_call_args(payload)` (`src/main.py:61-78`): the
`except Exception` handler catches every raised exception and the function
falls through to `return None`. -/
def extract_tool_call_args (payload : JValue) : Option JValue :=
  match extract_tool_call_args_checked payload with
  | .ok r => r
  | .error _ => none

/-! ## Mid-call endpoint `send_specific_email` (`src/main.py:91-201`) -/

/-- The resolution decision of the mid-call endpoint: either the terminal
`\x7b"success": False, "message": "No email provided"\x7d` result, or the
resolved recipient fields handed to the template and `send_email`. -/
inductive MidCallOutcome where
  | noEmail
  | send (user_email user_name topic : JValue)

/-- The line `args = extract_tool_call_args(payload) or payload`
(`src/main.py:105`): a falsy extraction result (including `None`) falls back
to the raw payload. -/
def argsSource (payload : JValue) : JValue :=
  match extract_tool_call_args payload with
  | some v => if truthy v then v else payload
  | none => payload

/-- Lines `src/main.py:107-112`: read `user_email`, `user_name` (default
`"there"`), `topic` (default `"your request"`), then fail when `user_email`
is falsy. -/
def resolveFromArgs (args : JValue) : Except PyErr MidCallOutcome := do
  let user_email ← pyGetN args "user_email"
  let user_name ← pyGet args "user_name" (.str "there")
  let topic ← pyGet args "topic" (.str "your request")
  if truthy user_email then
    pure (.send user_email user_name topic)
  else
    pure .noEmail

/-- Model of the resolution logic of `send_specific_email`
(`src/main.py:91-201`) on an already-decoded JSON body.  An undecodable body
is caught at `src/main.py:97-100` and answered with the structured
`"Bad JSON"` result before this logic runs; a `.error` result models a Python
exception escaping the handler. -/
def send_specific_email (payload : JValue) : Except PyErr MidCallOutcome :=
  resolveFromArgs (argsSource payload)

/-! ## Post-call endpoint `vapi_webhook` (`src/main.py:206-317`) -/

/-- The resolution decision of the post-call endpoint: the `"Ignored: ..."`
success result for an irrelevant message kind, the `"No email found"`
failure result, or the resolved recipient handed to `send_email`. -/
inductive WebhookOutcome where
  | ignored (msg_type : JValue)
  | noEmailFound
  | sendFollowUp (user_email : JValue)

/-- `None` for `Option.none`, the payload value otherwise. -/
def optToJ : Option String → JValue
  | some s => .str s
  | none => .null

/-- The line `msg_type = message_data.get("type") or payload.get("type")`
(`src/main.py:220`). -/
def resolveMsgType (payload message_data : JValue) : Except PyErr JValue := do
  let t1 ← pyGetN message_data "type"
  if truthy t1 then pure t1 else pyGetN payload "type"

/-- The loop `for path in [...]` over candidate customer objects
(`src/main.py:228-235`): skip falsy entries, accept the first entry whose
`email` field is truthy, take `path["email"]`, `break`. -/
def customerLoop : List JValue → Except PyErr JValue
  | [] => .ok .null
  | path :: rest =>
    if truthy path then do
      let e ← pyGetN path "email"
      if truthy e then pySubStr path "email"
      else customerLoop rest
    else
      customerLoop rest

/-- The transcript fallback (`src/main.py:238-240`):
`transcript = message_data.get("transcript") or payload.get("transcript", "")`
then `extract_email_from_text(transcript)`. -/
def transcriptScan (payload message_data : JValue) : Except PyErr JValue := do
  let tr1 ← pyGetN message_data "transcript"
  let transcript ← if truthy tr1 then pure tr1 else pyGet payload "transcript" (.str "")
  let r ← pyScanText transcript
  pure (optToJ r)

/-- The email hunt of the webhook (`src/main.py:226-244`): the eagerly built
candidate list, the loop, the transcript fallback and the last-resort scan of
`json.dumps(payload)`. -/
def emailSearch (payload message_data : JValue) : Except PyErr JValue := do
  let p1 ← pyGet message_data "customer" (.obj .nil)
  let p2 ← pyGet payload "customer" (.obj .nil)
  let call ← pyGet message_data "call" (.obj .nil)
  let p3 ← pyGet call "customer" (.obj .nil)
  let ue1 ← customerLoop [p1, p2, p3]
  let ue2 ← if truthy ue1 then pure ue1 else transcriptScan payload message_data
  pure (if truthy ue2 then ue2
        else optToJ (extract_email_from_text (json_dumps payload)))

/-- Model of the resolution logic of `vapi_webhook` (`src/main.py:206-317`)
on an already-decoded JSON body: classify via `msg_type`, short-circuit the
`"Ignored"` result for anything but `"end-of-call-report"`, otherwise hunt
for an email and either report `"No email found"` or hand the address to
`send_email`.  A `.error` result models a Python exception escaping the
handler. -/
def vapi_webhook (payload : JValue) : Except PyErr WebhookOutcome := do
  let message_data ← pyGet payload "message" (.obj .nil)
  let msg_type ← resolveMsgType payload message_data
  if pyEqStr msg_type "end-of-call-report" then do
    let ue ← emailSearch payload message_data
    if truthy ue then pure (.sendFollowUp ue) else pure .noEmailFound
  else
    pure (.ignored msg_type)

/-! ## Spec-side (declarative) definitions

These definitions follow the wording of the specification, to be compared
with the source-derived model above. -/

/-- Option-to-JSON coercion: absence is Python `None`. -/
def jOfOpt : Option JValue → JValue
  | some v => v
  | none => .null

/-- Spec §4: a candidate customer object is "checked for a non-empty `email`
field" — it yields its `email` value when that value is present and
non-empty (truthy), and nothing otherwise. -/
def specCustomerEmail (p : JValue) : Option JValue :=
  match p with
  | .obj fs =>
    match fs.lookup "email" with
    | some e => if truthy e then some e else none
    | none => none
  | _ => none

/-- Spec §4: "search for an email in strict priority order, stopping at
first success" over the candidate customer objects. -/
def specFirstEmail : List JValue → Option JValue
  | [] => none
  | p :: rest =>
    match specCustomerEmail p with
    | some e => some e
    | none => specFirstEmail rest

/-- Spec §4: "read a type field from a nested `message` object, falling back
to a top-level type field", stated on the fields of the payload and of its
message object. -/
def specMsgType (fs mfs : JFields) : JValue :=
  let t1 := (mfs.lookup "type").getD .null
  if truthy t1 then t1 else (fs.lookup "type").getD .null

/-- Spec §4: "take a transcript string (checked under the message object,
then top-level)". -/
def specTranscript (fs mfs : JFields) : JValue :=
  let tr1 := (mfs.lookup "transcript").getD .null
  if truthy tr1 then tr1 else (fs.lookup "transcript").getD (.str "")

/-- Spec §4: the lenient email pattern
`[a-zA-Z0-9._%+-]+@[a-zA-Z0-9.-]+\.[a-zA-Z]\x7b2,\x7d` as a declarative
shape: a non-empty local part, an `@`, a non-empty domain, a dot and a TLD of
at least two letters. -/
def specEmailShape (m : List Char) : Prop :=
  ∃ l d t, m = l ++ '@' :: (d ++ '.' :: t) ∧
    l ≠ [] ∧ l.all localChar = true ∧
    d ≠ [] ∧ d.all domainChar = true ∧
    2 ≤ t.length ∧ t.all (fun c => c.isAlpha) = true

/-! ## Shape predicates used as hypotheses -/

/-- A value the customer loop handles without raising: a `dict`, or falsy
(skipped by `if path and ...`). -/
def objOrFalsy (v : JValue) : Bool := v.isObj || !truthy v

/-- A value `extract_email_from_text` handles without raising: a string, or
falsy (short-circuited by `if not text`). -/
def strOrFalsy (v : JValue) : Bool := v.isStr || !truthy v

/-- Conforming shape of the nested fields read by the webhook's end-of-call
branch: the values reached by the eager candidate-list construction are
`dict`s where required, and the transcript reached by the scan is a string
or falsy. -/
def webhookShapesOk (fs mfs : JFields) : Bool :=
  objOrFalsy ((mfs.lookup "customer").getD (.obj .nil)) &&
  objOrFalsy ((fs.lookup "customer").getD (.obj .nil)) &&
  (match (mfs.lookup "call").getD (.obj .nil) with
   | .obj cfs => objOrFalsy ((cfs.lookup "customer").getD (.obj .nil))
   | _ => false) &&
  strOrFalsy (specTranscript fs mfs)

/-! ## Concrete payloads from the specification's examples -/

/-- Spec §8 mid-call tool-call payload. -/
def samplePayloadToolCall : JValue :=
  jobj [("message", jobj [("toolCalls", jarr [jobj [("function",
    jobj [("arguments", jstr "\x7b\"user_email\":\"x@y.com\",\"topic\":\"quote\"\x7d")])]])])]

/-- A tool-call payload whose arguments parse to the empty mapping, with
direct parameters alongside. -/
def samplePayloadEmptyArgs : JValue :=
  jobj [("message", jobj [("toolCalls", jarr [jobj [("function",
    jobj [("arguments", jstr "\x7b\x7d")])]])]), ("user_email", jstr "z@w.com")]

/-- A tool-call payload whose arguments parse to JSON `null`, with direct
parameters alongside. -/
def samplePayloadNullArgs : JValue :=
  jobj [("message", jobj [("toolCalls", jarr [jobj [("function",
    jobj [("arguments", jstr "null")])]])]), ("user_email", jstr "z@w.com")]

/-- A tool-call payload whose arguments string is not valid JSON. -/
def samplePayloadBadArgs : JValue :=
  jobj [("message", jobj [("toolCalls", jarr [jobj [("function",
    jobj [("arguments", jstr "oops")])]])])]

/-- Spec §8 post-call payload with a customer email under `message`. -/
def samplePayloadCustomer : JValue :=
  jobj [("message", jobj [("type", jstr "end-of-call-report"),
    ("customer", jobj [("email", jstr "c@d.com")])])]

/-- Spec §8 status-update payload. -/
def samplePayloadStatusUpdate : JValue :=
  jobj [("message", jobj [("type", jstr "status-update")])]

/-- Spec §8 post-call payload with no customer object and an email in the
transcript. -/
def samplePayloadTranscript : JValue :=
  jobj [("message", jobj [("type", jstr "end-of-call-report"),
    ("transcript", jstr "Email me at jane_doe99@mail-host.io please")])]

/-- A post-call payload whose only email sits in unrelated metadata, reached
only by the last-resort scan of the serialized payload. -/
def samplePayloadMetadata : JValue :=
  jobj [("message", jobj [("type", jstr "end-of-call-report")]),
    ("note", jstr "reach bob@example.com")]

/-! ## Helper lemmas -/

theorem ok_bind {ε α β : Type} (a : α) (f : α → Except ε β) :
    (Except.ok a >>= f) = f a := rfl

theorem error_bind {ε α β : Type} (e : ε) (f : α → Except ε β) :
    ((Except.error e : Except ε α) >>= f) = .error e := rfl

theorem pure_eq_ok {ε α : Type} (a : α) : (pure a : Except ε α) = .ok a := rfl

theorem all_takeWhile (p : Char → Bool) (l : List Char) :
    (l.takeWhile p).all p = true := by
  induction l with
  | nil => rfl
  | cons c cs ih =>
    by_cases h : p c
    · simp [List.takeWhile_cons, h, ih]
    · simp [List.takeWhile_cons, h]

theorem takeWhile_append_all {p : Char → Bool} (l r : List Char)
    (h : l.all p = true) : (l ++ r).takeWhile p = l ++ r.takeWhile p := by
  induction l with
  | nil => rfl
  | cons c cs ih =>
    simp only [List.all_cons, Bool.and_eq_true] at h
    simp [List.takeWhile_cons, h.1, ih h.2]

theorem dropWhile_append_all {p : Char → Bool} (l r : List Char)
    (h : l.all p = true) : (l ++ r).dropWhile p = r.dropWhile p := by
  induction l with
  | nil => rfl
  | cons c cs ih =>
    simp only [List.all_cons, Bool.and_eq_true] at h
    simp [List.dropWhile_cons, h.1, ih h.2]

theorem takeWhile_halt {p : Char → Bool} (l r : List Char) (x : Char)
    (h : l.all p = true) (hx : p x = false) :
    (l ++ x :: r).takeWhile p = l ∧ (l ++ x :: r).dropWhile p = x :: r := by
  constructor
  · rw [takeWhile_append_all l (x :: r) h]
    simp [List.takeWhile_cons, hx]
  · rw [dropWhile_append_all l (x :: r) h]
    simp [List.dropWhile_cons, hx]

theorem domainChar_of_alpha (c : Char) (h : c.isAlpha = true) :
    domainChar c = true := by simp [domainChar, h]

theorem all_domainChar_of_alpha (t : List Char)
    (h : t.all (fun c => c.isAlpha) = true) : t.all domainChar = true := by
  simp only [List.all_eq_true] at h ⊢
  exact fun c hc => domainChar_of_alpha c (h c hc)

theorem domSplit_sound :
    ∀ r d t, domSplit r = some (d, t) →
      ∃ u, r = d ++ '.' :: u ∧ t = u.takeWhile (fun c => c.isAlpha) ∧ 2 ≤ t.length := by
  intro r
  induction r with
  | nil => intro d t h; simp [domSplit] at h
  | cons c cs ih =>
    intro d t h
    cases hds : domSplit cs with
    | some dt =>
      obtain ⟨d₂, t₂⟩ := dt
      simp only [domSplit, hds, Option.some.injEq, Prod.mk.injEq] at h
      obtain ⟨rfl, rfl⟩ := h
      obtain ⟨u, hu, htw, hlen⟩ := ih d₂ t₂ hds
      exact ⟨u, by rw [hu]; rfl, htw, hlen⟩
    | none =>
      simp only [domSplit, hds] at h
      by_cases hc : (c == '.') = true
      · rw [if_pos hc] at h
        by_cases hlen : 2 ≤ (cs.takeWhile (fun ch => ch.isAlpha)).length
        · rw [if_pos hlen] at h
          simp only [Option.some.injEq, Prod.mk.injEq] at h
          obtain ⟨rfl, rfl⟩ := h
          exact ⟨cs, by simp [beq_iff_eq.mp hc], rfl, hlen⟩
        · rw [if_neg hlen] at h; cases h
      · rw [if_neg hc] at h; cases h

theorem domSplit_complete :
    ∀ (d rest : List Char), 2 ≤ (rest.takeWhile (fun c => c.isAlpha)).length →
      ∃ d' t', domSplit (d ++ '.' :: rest) = some (d', t') ∧ d.length ≤ d'.length := by
  intro d
  induction d with
  | nil =>
    intro rest hlen
    cases hds : domSplit rest with
    | some dt => exact ⟨'.' :: dt.1, dt.2, by simp [domSplit, hds], by simp⟩
    | none => exact ⟨[], rest.takeWhile (fun c => c.isAlpha), by simp [domSplit, hds, hlen], by simp⟩
  | cons c d₁ ih =>
    intro rest hlen
    obtain ⟨d₂, t₂, hds, hle⟩ := ih rest hlen
    refine ⟨c :: d₂, t₂, ?_, by simpa using Nat.succ_le_succ hle⟩
    simp [domSplit, hds]

theorem matchAt_sound (cs m : List Char) (h : matchAt cs = some m) :
    specEmailShape m ∧ ∃ post, cs = m ++ post := by
  by_cases hl : (cs.takeWhile localChar).isEmpty = true
  · simp [matchAt, hl] at h
  · cases hdrop : cs.dropWhile localChar with
    | nil => simp [matchAt, hl, hdrop] at h
    | cons a rest =>
      by_cases ha : a = '@'
      · subst ha
        cases hds : domSplit (rest.takeWhile domainChar) with
        | none => simp [matchAt, hl, hdrop, hds] at h
        | some dt =>
          obtain ⟨d, t⟩ := dt
          by_cases hd : d.isEmpty = true
          · simp [matchAt, hl, hdrop, hds, hd] at h
          · have hm : m = cs.takeWhile localChar ++ '@' :: (d ++ '.' :: t) := by
              simp [matchAt, hl, hdrop, hds, hd] at h
              exact h.symm
            obtain ⟨u, hu, htw, hlen⟩ := domSplit_sound _ d t hds
            have hrall : (rest.takeWhile domainChar).all domainChar = true :=
              all_takeWhile _ _
            rw [hu] at hrall
            simp only [List.all_append, List.all_cons, Bool.and_eq_true] at hrall
            constructor
            · refine ⟨cs.takeWhile localChar, d, t, hm, ?_, all_takeWhile _ _, ?_, hrall.1, hlen, ?_⟩
              · intro hnil; rw [hnil] at hl; exact hl rfl
              · intro hnil; rw [hnil] at hd; exact hd rfl
              · rw [htw]; exact all_takeWhile _ _
            · refine ⟨u.dropWhile (fun c => c.isAlpha) ++ rest.dropWhile domainChar, ?_⟩
              have hcs : cs = cs.takeWhile localChar ++ '@' :: rest := by
                rw [← hdrop, List.takeWhile_append_dropWhile]
              have hrest : rest = (d ++ '.' :: u) ++ rest.dropWhile domainChar := by
                rw [← hu, List.takeWhile_append_dropWhile]
              have huu : u = t ++ u.dropWhile (fun c => c.isAlpha) := by
                rw [htw, List.takeWhile_append_dropWhile]
              rw [hm]
              conv_lhs => rw [hcs, hrest, huu]
              simp
      · simp [matchAt, hl, hdrop, ha] at h

theorem matchAt_complete (m post cs : List Char) (hshape : specEmailShape m)
    (hcs : cs = m ++ post) : ∃ m', matchAt cs = some m' := by
  obtain ⟨l, d, t, hm, hlnil, hlall, hdnil, hdall, htlen, htall⟩ := hshape
  have hcs' : cs = l ++ '@' :: ((d ++ '.' :: t) ++ post) := by
    rw [hcs, hm]; simp
  have hat : localChar '@' = false := by decide
  obtain ⟨htk, hdr⟩ := takeWhile_halt l ((d ++ '.' :: t) ++ post) '@' hlall hat
  rw [← hcs'] at htk hdr
  have hdomall : (d ++ '.' :: t).all domainChar = true := by
    simp only [List.all_append, List.all_cons, Bool.and_eq_true]
    exact ⟨hdall, by decide, all_domainChar_of_alpha t htall⟩
  have hsplit : (d ++ '.' :: (t ++ post)).takeWhile domainChar
      = d ++ '.' :: (t ++ post.takeWhile domainChar) := by
    simpa using takeWhile_append_all (d ++ '.' :: t) post hdomall
  have halpha : 2 ≤ ((t ++ post.takeWhile domainChar).takeWhile (fun c => c.isAlpha)).length := by
    rw [takeWhile_append_all t _ htall]
    calc 2 ≤ t.length := htlen
    _ ≤ t.length + (((post.takeWhile domainChar)).takeWhile (fun c => c.isAlpha)).length :=
        Nat.le_add_right _ _
    _ = _ := by simp
  obtain ⟨d', t', hds, hdlen⟩ := domSplit_complete d (t ++ post.takeWhile domainChar) halpha
  have hlne : (cs.takeWhile localChar).isEmpty = false := by
    rw [htk]; cases l with
    | nil => exact absurd rfl hlnil
    | cons a as => rfl
  have hdne : d' ≠ [] := by
    cases d' with
    | nil =>
      cases d with
      | nil => exact absurd rfl hdnil
      | cons a as => simp at hdlen
    | cons a as => exact List.cons_ne_nil a as
  refine ⟨cs.takeWhile localChar ++ '@' :: (d' ++ '.' :: t'), ?_⟩
  simp [matchAt, hlne, hdr, hsplit, hds, hdne]

theorem searchEmail_some :
    ∀ cs m, searchEmail cs = some m →
      ∃ pre post, cs = pre ++ (m ++ post) ∧ specEmailShape m ∧
        ∀ pre' m' post', cs = pre' ++ (m' ++ post') → specEmailShape m' →
          pre.length ≤ pre'.length := by
  intro cs
  induction cs with
  | nil => intro m h; cases h
  | cons c cs ih =>
    intro m h
    cases hma : matchAt (c :: cs) with
    | some m0 =>
      simp only [searchEmail, hma, Option.some.injEq] at h
      subst h
      obtain ⟨hshape, post, hpost⟩ := matchAt_sound _ _ hma
      exact ⟨[], post, by simpa using hpost, hshape, fun _ _ _ _ _ => Nat.zero_le _⟩
    | none =>
      simp only [searchEmail, hma] at h
      obtain ⟨pre, post, hsplit, hshape, hmin⟩ := ih m h
      refine ⟨c :: pre, post, by rw [List.cons_append, hsplit], hshape, ?_⟩
      intro pre' m' post' heq hshape'
      cases pre' with
      | nil =>
        exfalso
        obtain ⟨_, hm'⟩ := matchAt_complete m' post' (c :: cs) hshape' (by simpa using heq)
        rw [hma] at hm'; cases hm'
      | cons a pre₂ =>
        rw [List.cons_append] at heq
        injection heq with h1 h2
        simpa using Nat.succ_le_succ (hmin pre₂ m' post' h2 hshape')

theorem searchEmail_none :
    ∀ cs, searchEmail cs = none →
      ∀ pre m post, cs = pre ++ (m ++ post) → ¬specEmailShape m := by
  intro cs
  induction cs with
  | nil =>
    intro _ pre m post heq hshape
    obtain ⟨l, d, t, hm, hlnil, _⟩ := hshape
    have hnil := heq.symm
    rw [List.append_eq_nil] at hnil
    obtain ⟨-, hnil2⟩ := hnil
    rw [List.append_eq_nil] at hnil2
    rw [hnil2.1] at hm
    cases l with
    | nil => exact hlnil rfl
    | cons a as => cases hm
  | cons c cs ih =>
    intro h pre m post heq hshape
    cases hma : matchAt (c :: cs) with
    | some m0 => simp [searchEmail, hma] at h
    | none =>
      simp only [searchEmail, hma] at h
      cases pre with
      | nil =>
        obtain ⟨_, hm'⟩ := matchAt_complete m post (c :: cs) hshape (by simpa using heq)
        rw [hma] at hm'; cases hm'
      | cons a pre₂ =>
        rw [List.cons_append] at heq
        injection heq with h1 h2
        exact ih h pre₂ m post h2 hshape

theorem searchEmail_ne_nil (cs m : List Char) (h : searchEmail cs = some m) :
    m ≠ [] := by
  obtain ⟨_, _, _, hshape, _⟩ := searchEmail_some cs m h
  obtain ⟨l, d, t, hm, hlnil, _⟩ := hshape
  intro hnil
  rw [hnil] at hm
  cases l with
  | nil => exact hlnil rfl
  | cons a as => cases hm

theorem extract_email_ne_empty (s r : String)
    (h : extract_email_from_text s = some r) : r ≠ "" := by
  unfold extract_email_from_text at h
  by_cases hs : (s == "") = true
  · rw [if_pos hs] at h; cases h
  · rw [if_neg hs] at h
    cases hse : searchEmail s.toList with
    | none => rw [hse] at h; cases h
    | some m =>
      rw [hse] at h
      rw [show (Option.map String.mk (some m)) = some (String.mk m) from rfl] at h
      injection h with h
      subst h
      have hm := searchEmail_ne_nil _ _ hse
      intro hr
      apply hm
      have : (String.mk m).data = ("" : String).data := by rw [hr]
      simpa using this

theorem truthy_str_of_ne (r : String) (h : r ≠ "") : truthy (.str r) = true := by
  simp [truthy, h]

theorem resolveMsgType_obj (fs mfs : JFields) :
    resolveMsgType (.obj fs) (.obj mfs) = .ok (specMsgType fs mfs) := by
  unfold resolveMsgType specMsgType
  by_cases h : truthy ((mfs.lookup "type").getD .null) = true <;>
    simp [pyGetN, pyGet, ok_bind, pure_eq_ok, h]

theorem truthy_obj_of_lookup (fs : JFields) (k : String) (v : JValue)
    (h : fs.lookup k = some v) : truthy (.obj fs) = true := by
  cases fs with
  | nil => simp [JFields.lookup] at h
  | cons a b tl => simp [truthy, JFields.isNil]

theorem customerLoop_spec (ps : List JValue) (h : ∀ p ∈ ps, objOrFalsy p = true) :
    customerLoop ps = .ok (jOfOpt (specFirstEmail ps)) := by
  induction ps with
  | nil => rfl
  | cons p rest ih =>
    have hp : objOrFalsy p = true := h p (List.mem_cons_self ..)
    have hrest := ih fun q hq => h q (List.mem_cons_of_mem _ hq)
    cases p with
    | obj fs =>
      cases hl : fs.lookup "email" with
      | none =>
        by_cases ht : truthy (JValue.obj fs) = true
        · simp [customerLoop, ht, pyGetN, pyGet, hl, ok_bind, truthy,
                specFirstEmail, specCustomerEmail, hrest]
        · simp [customerLoop, ht, specFirstEmail, specCustomerEmail, hl, hrest]
      | some e =>
        have ht := truthy_obj_of_lookup fs "email" e hl
        by_cases he : truthy e = true
        · simp [customerLoop, ht, pyGetN, pyGet, hl, ok_bind, he, pySubStr,
                specFirstEmail, specCustomerEmail, jOfOpt]
        · simp [customerLoop, ht, pyGetN, pyGet, hl, ok_bind, he,
                specFirstEmail, specCustomerEmail, hrest]
    | null => simp [customerLoop, truthy, specFirstEmail, specCustomerEmail, hrest]
    | bool b =>
      have hb : b = false := by
        by_cases hb : b = false
        · exact hb
        · simp [objOrFalsy, JValue.isObj, truthy, hb] at hp
      subst hb
      simp [customerLoop, truthy, specFirstEmail, specCustomerEmail, hrest]
    | num n =>
      have hn : truthy (JValue.num n) = false := by
        by_cases hn : truthy (JValue.num n) = true
        · simp [objOrFalsy, JValue.isObj, hn] at hp
        · simpa using hn
      simp [customerLoop, hn, specFirstEmail, specCustomerEmail, hrest]
    | str s =>
      have hn : truthy (JValue.str s) = false := by
        by_cases hn : truthy (JValue.str s) = true
        · simp [objOrFalsy, JValue.isObj, hn] at hp
        · simpa using hn
      simp [customerLoop, hn, specFirstEmail, specCustomerEmail, hrest]
    | arr xs =>
      have hn : truthy (JValue.arr xs) = false := by
        by_cases hn : truthy (JValue.arr xs) = true
        · simp [objOrFalsy, JValue.isObj, hn] at hp
        · simpa using hn
      simp [customerLoop, hn, specFirstEmail, specCustomerEmail, hrest]

theorem transcriptScan_eq (fs mfs : JFields) :
    transcriptScan (.obj fs) (.obj mfs) =
      (pyScanText (specTranscript fs mfs) >>= fun r => pure (optToJ r)) := by
  unfold transcriptScan specTranscript
  by_cases h : truthy ((mfs.lookup "transcript").getD .null) = true <;>
    simp [pyGetN, pyGet, ok_bind, pure_eq_ok, h]

theorem emailSearch_eq (fs mfs cfs : JFields)
    (hcall : (mfs.lookup "call").getD (.obj .nil) = .obj cfs) :
    emailSearch (.obj fs) (.obj mfs) = (do
      let ue1 ← customerLoop [(mfs.lookup "customer").getD (.obj .nil),
                              (fs.lookup "customer").getD (.obj .nil),
                              (cfs.lookup "customer").getD (.obj .nil)]
      let ue2 ← if truthy ue1 then pure ue1 else transcriptScan (.obj fs) (.obj mfs)
      pure (if truthy ue2 then ue2
            else optToJ (extract_email_from_text (json_dumps (.obj fs))))) := by
  unfold emailSearch
  simp [pyGet, hcall, ok_bind]

theorem vapi_webhook_obj (fs mfs : JFields)
    (hm : (fs.lookup "message").getD (.obj .nil) = .obj mfs) :
    vapi_webhook (.obj fs) =
      (if pyEqStr (specMsgType fs mfs) "end-of-call-report" then do
          let ue ← emailSearch (.obj fs) (.obj mfs)
          if truthy ue then pure (.sendFollowUp ue) else pure .noEmailFound
        else pure (.ignored (specMsgType fs mfs))) := by
  unfold vapi_webhook
  simp [pyGet, hm, resolveMsgType_obj, ok_bind]

theorem extract_of_checked_ok (p : JValue) (r : Option JValue)
    (h : extract_tool_call_args_checked p = .ok r) : extract_tool_call_args p = r := by
  simp [extract_tool_call_args, h]

theorem extract_of_checked_error (p : JValue) (e : PyErr)
    (h : extract_tool_call_args_checked p = .error e) : extract_tool_call_args p = none := by
  simp [extract_tool_call_args, h]

theorem argsSource_of_none (p : JValue) (h : extract_tool_call_args p = none) :
    argsSource p = p := by
  simp [argsSource, h]

theorem argsSource_of_falsy (p v : JValue) (h : extract_tool_call_args p = some v)
    (hf : truthy v = false) : argsSource p = p := by
  simp [argsSource, h, hf]

theorem argsSource_of_truthy (p v : JValue) (h : extract_tool_call_args p = some v)
    (ht : truthy v = true) : argsSource p = v := by
  simp [argsSource, h, ht]

theorem isObj_exists (v : JValue) (h : v.isObj = true) : ∃ g, v = .obj g := by
  cases v <;> first | exact ⟨_, rfl⟩ | simp [JValue.isObj] at h

theorem specFirstEmail_truthy :
    ∀ ps e, specFirstEmail ps = some e → truthy e = true := by
  intro ps
  induction ps with
  | nil => intro e h; cases h
  | cons p rest ih =>
    intro e h
    cases hce : specCustomerEmail p with
    | some e0 =>
      simp only [specFirstEmail, hce, Option.some.injEq] at h
      subst h
      cases p with
      | obj fs =>
        cases hl : fs.lookup "email" with
        | none => simp [specCustomerEmail, hl] at hce
        | some e1 =>
          by_cases ht : truthy e1 = true
          · simp only [specCustomerEmail, hl, ht, if_true, Option.some.injEq] at hce
            subst hce; exact ht
          · simp [specCustomerEmail, hl, ht] at hce
      | null => simp [specCustomerEmail] at hce
      | bool b => simp [specCustomerEmail] at hce
      | num n => simp [specCustomerEmail] at hce
      | str s => simp [specCustomerEmail] at hce
      | arr xs => simp [specCustomerEmail] at hce
    | none =>
      simp only [specFirstEmail, hce] at h
      exact ih e h

/-! ## Claims -/

/-- C9: recipient resolution is a deterministic pure function of the decoded
payload: in this embedding `extract_tool_call_args`, `send_specific_email`
and `vapi_webhook` are total functions of the payload value alone, so any
two invocations on identical payloads return identical results, with no
payload mutation and no dependence on prior invocations. -/
theorem c9_resolution_deterministic (p q : JValue) (h : p = q) :
    extract_tool_call_args p = extract_tool_call_args q ∧
    send_specific_email p = send_specific_email q ∧
    vapi_webhook p = vapi_webhook q := by
  subst h; exact ⟨rfl, rfl, rfl⟩

theorem c9_resolution_deterministic_witness :
    extract_tool_call_args samplePayloadCustomer = extract_tool_call_args samplePayloadCustomer ∧
    send_specific_email samplePayloadCustomer = send_specific_email samplePayloadCustomer ∧
    vapi_webhook samplePayloadCustomer = vapi_webhook samplePayloadCustomer :=
  c9_resolution_deterministic samplePayloadCustomer samplePayloadCustomer rfl

/-- C5: the webhook classifies the message kind from the nested `message`
object's `type` field with fallback to the top-level `type` field
(`resolveMsgType` agrees with the declarative `specMsgType`); whenever the
resolved kind is not `"end-of-call-report"` it short-circuits with the
`ignored` success result, performing no email resolution; in particular
`\x7b"message":\x7b"type":"status-update"\x7d\x7d` is ignored. -/
theorem c5_classification :
    (∀ fs mfs, resolveMsgType (.obj fs) (.obj mfs) = .ok (specMsgType fs mfs)) ∧
    (∀ fs mfs, (JFields.lookup fs "message").getD (.obj .nil) = .obj mfs →
      pyEqStr (specMsgType fs mfs) "end-of-call-report" = false →
      vapi_webhook (.obj fs) = .ok (.ignored (specMsgType fs mfs))) ∧
    vapi_webhook samplePayloadStatusUpdate = .ok (.ignored (jstr "status-update")) := by
  refine ⟨resolveMsgType_obj, ?_, rfl⟩
  intro fs mfs hm ht
  rw [vapi_webhook_obj fs mfs hm, if_neg (by simp [ht]), pure_eq_ok]

theorem c5_classification_witness :
    vapi_webhook samplePayloadStatusUpdate
      = .ok (.ignored (specMsgType (jfields [("message", jobj [("type", jstr "status-update")])])
                                   (jfields [("type", jstr "status-update")]))) :=
  c5_classification.2.1 (jfields [("message", jobj [("type", jstr "status-update")])])
    (jfields [("type", jstr "status-update")]) rfl rfl

/-- C4 counterexample: the claim says the raw payload is consulted *exactly
when* `extract_tool_call_args` is absent, but for this payload the extraction
is present (`some \x7b\x7d`) — under the claim the arguments would provide no
`user_email` and the endpoint would fail with the "no recipient" result — yet
the code falls back to the raw payload and resolves `z@w.com`. -/
theorem c4_counterexample :
    extract_tool_call_args samplePayloadEmptyArgs = some (jobj []) ∧
    resolveFromArgs (jobj []) = .ok .noEmail ∧
    send_specific_email samplePayloadEmptyArgs
      = .ok (.send (jstr "z@w.com") (jstr "there") (jstr "your request")) :=
  ⟨rfl, rfl, rfl⟩

/-- C4 (amended): mid-call resolution attempts `extract_tool_call_args` and
falls back to treating the raw payload as the arguments mapping exactly when
the extraction result is absent **or falsy** (empty mapping, JSON null); it
then reads `user_email` (a falsy or missing value is the terminal "no
recipient" failure), `user_name` defaulting to `"there"` and `topic`
defaulting to `"your request"`; the §8 tool-call payload resolves email
`x@y.com`, topic `quote`, name `there`. -/
theorem c4_midcall_resolution :
    (∀ p, extract_tool_call_args p = none → send_specific_email p = resolveFromArgs p) ∧
    (∀ p v, extract_tool_call_args p = some v → truthy v = false →
      send_specific_email p = resolveFromArgs p) ∧
    (∀ p v, extract_tool_call_args p = some v → truthy v = true →
      send_specific_email p = resolveFromArgs v) ∧
    (∀ fs, resolveFromArgs (.obj fs) =
      .ok (if truthy ((JFields.lookup fs "user_email").getD .null)
           then .send ((JFields.lookup fs "user_email").getD .null)
                      ((JFields.lookup fs "user_name").getD (.str "there"))
                      ((JFields.lookup fs "topic").getD (.str "your request"))
           else .noEmail)) ∧
    send_specific_email samplePayloadToolCall
      = .ok (.send (jstr "x@y.com") (jstr "there") (jstr "quote")) := by
  refine ⟨?_, ?_, ?_, ?_, rfl⟩
  · intro p h
    unfold send_specific_email
    rw [argsSource_of_none p h]
  · intro p v h hf
    unfold send_specific_email
    rw [argsSource_of_falsy p v h hf]
  · intro p v h ht
    unfold send_specific_email
    rw [argsSource_of_truthy p v h ht]
  · intro fs
    unfold resolveFromArgs
    by_cases ht : truthy ((JFields.lookup fs "user_email").getD .null) = true <;>
      simp [pyGetN, pyGet, ok_bind, pure_eq_ok, ht]

theorem c4_midcall_resolution_witness :
    send_specific_email samplePayloadStatusUpdate
      = resolveFromArgs samplePayloadStatusUpdate :=
  c4_midcall_resolution.1 samplePayloadStatusUpdate rfl

/-- C10: the fallback to the raw payload is triggered by any falsy result of
`extract_tool_call_args`, not only absence: when the extracted arguments are
an empty mapping or JSON null, `user_email`, `user_name` and `topic` are
read from the raw payload instead. -/
theorem c10_falsy_fallback :
    (∀ p v, extract_tool_call_args p = some v → truthy v = false →
      argsSource p = p ∧ send_specific_email p = resolveFromArgs p) ∧
    (extract_tool_call_args samplePayloadEmptyArgs = some (jobj []) ∧
      send_specific_email samplePayloadEmptyArgs
        = .ok (.send (jstr "z@w.com") (jstr "there") (jstr "your request"))) ∧
    (extract_tool_call_args samplePayloadNullArgs = some .null ∧
      send_specific_email samplePayloadNullArgs
        = .ok (.send (jstr "z@w.com") (jstr "there") (jstr "your request"))) := by
  refine ⟨?_, ⟨rfl, rfl⟩, ⟨rfl, rfl⟩⟩
  intro p v h hf
  refine ⟨argsSource_of_falsy p v h hf, ?_⟩
  unfold send_specific_email
  rw [argsSource_of_falsy p v h hf]

theorem c10_falsy_fallback_witness :
    argsSource samplePayloadNullArgs = samplePayloadNullArgs ∧
    send_specific_email samplePayloadNullArgs = resolveFromArgs samplePayloadNullArgs :=
  c10_falsy_fallback.1 samplePayloadNullArgs .null rfl rfl

/-- C7: for every payload without a recognizable tool-call structure (the
`message` lookup fails or the tool-call list resolves to a falsy value),
`extract_tool_call_args` returns absent; `extract_tool_call_args` is a total
function into `Option` — the `except` handler catches every raised
exception — and in particular when the function-arguments value is a string
that fails to parse as JSON the whole operation returns absent to the
caller. -/
theorem c7_toolcall_absent :
    (∀ p, (∀ m tc, pyGet p "message" (.obj .nil) = .ok m →
        toolCallsOf m = .ok tc → truthy tc = false) →
      extract_tool_call_args p = none) ∧
    (∀ p m tc e, pyGet p "message" (.obj .nil) = .ok m →
      toolCallsOf m = .ok tc → truthy tc = true →
      firstEntryArgs tc = .error e →
      extract_tool_call_args p = none) ∧
    (∀ tc first fn s e, pySub0 tc = .ok first →
      pyGet first "function" (.obj .nil) = .ok fn →
      pyGet fn "arguments" (.obj .nil) = .ok (.str s) →
      json_loads s = .error e →
      firstEntryArgs tc = .error e) ∧
    extract_tool_call_args samplePayloadBadArgs = none := by
  refine ⟨?_, ?_, ?_, rfl⟩
  · intro p hfalsy
    cases hm : pyGet p "message" (.obj .nil) with
    | error e =>
      apply extract_of_checked_error p e
      unfold extract_tool_call_args_checked
      rw [hm, error_bind]
    | ok m =>
      cases htc : toolCallsOf m with
      | error e =>
        apply extract_of_checked_error p e
        unfold extract_tool_call_args_checked
        rw [hm, ok_bind, htc, error_bind]
      | ok tc =>
        apply extract_of_checked_ok p none
        unfold extract_tool_call_args_checked
        rw [hm, ok_bind, htc, ok_bind, if_neg (by simp [hfalsy m tc hm htc])]
        exact pure_eq_ok none
  · intro p m tc e hm htc ht hfe
    apply extract_of_checked_error p e
    unfold extract_tool_call_args_checked
    rw [hm, ok_bind, htc, ok_bind, if_pos ht, hfe, error_bind]
  · intro tc first fn s e h0 h1 h2 h3
    unfold firstEntryArgs
    rw [h0, ok_bind, h1, ok_bind, h2, ok_bind]
    exact h3

theorem c7_toolcall_absent_witness :
    extract_tool_call_args samplePayloadStatusUpdate = none ∧
    extract_tool_call_args samplePayloadBadArgs = none := by
  constructor
  · apply c7_toolcall_absent.1 samplePayloadStatusUpdate
    intro m tc hm htc
    rw [show pyGet samplePayloadStatusUpdate "message" (.obj .nil)
        = .ok (jobj [("type", jstr "status-update")]) from rfl] at hm
    injection hm with hm
    subst hm
    rw [show toolCallsOf (jobj [("type", jstr "status-update")]) = .ok (.arr .nil) from rfl] at htc
    injection htc with htc
    subst htc
    rfl
  · exact c7_toolcall_absent.2.2.2

/-- C8: `extract_tool_call_args` looks for the tool-call list under the
top-level `message` key, checking `toolCalls` then `toolCallList` in
priority order with the first non-empty (truthy) value winning; it takes the
first entry of that list and returns its function-arguments value, parsed
with `json.loads` when it is a string and used directly otherwise. -/
theorem c8_toolcall_lookup :
    (∀ mfs tc, JFields.lookup mfs "toolCalls" = some tc → truthy tc = true →
      toolCallsOf (.obj mfs) = .ok tc) ∧
    (∀ mfs tc2, truthy ((JFields.lookup mfs "toolCalls").getD .null) = false →
      JFields.lookup mfs "toolCallList" = some tc2 → truthy tc2 = true →
      toolCallsOf (.obj mfs) = .ok tc2) ∧
    (∀ p mfs tc v, pyGet p "message" (.obj .nil) = .ok (.obj mfs) →
      toolCallsOf (.obj mfs) = .ok tc → truthy tc = true →
      firstEntryArgs tc = .ok v →
      extract_tool_call_args p = some v) ∧
    (∀ x rest fn fargs, pyGet x "function" (.obj .nil) = .ok fn →
      pyGet fn "arguments" (.obj .nil) = .ok fargs →
      (∀ s, fargs = .str s → firstEntryArgs (.arr (.cons x rest)) = json_loads s) ∧
      (fargs.isStr = false → firstEntryArgs (.arr (.cons x rest)) = .ok fargs)) := by
  refine ⟨?_, ?_, ?_, ?_⟩
  · intro mfs tc hl ht
    unfold toolCallsOf
    simp [pyGetN, pyGet, ok_bind, pure_eq_ok, hl, ht]
  · intro mfs tc2 hf hl2 ht2
    unfold toolCallsOf
    simp [pyGetN, pyGet, ok_bind, pure_eq_ok, hf, hl2, ht2]
  · intro p mfs tc v hm htc ht hfe
    apply extract_of_checked_ok p (some v)
    unfold extract_tool_call_args_checked
    rw [hm, ok_bind, htc, ok_bind, if_pos ht, hfe, ok_bind]
    exact pure_eq_ok (some v)
  · intro x rest fn fargs h1 h2
    constructor
    · intro s hs
      subst hs
      unfold firstEntryArgs
      rw [show pySub0 (.arr (.cons x rest)) = .ok x from rfl, ok_bind,
          h1, ok_bind, h2, ok_bind]
    · intro hns
      unfold firstEntryArgs
      rw [show pySub0 (.arr (.cons x rest)) = .ok x from rfl, ok_bind,
          h1, ok_bind, h2, ok_bind]
      cases fargs with
      | str s => simp [JValue.isStr] at hns
      | null => rfl
      | bool b => rfl
      | num n => rfl
      | arr xs => rfl
      | obj fs => rfl

theorem c8_toolcall_lookup_witness :
    toolCallsOf (jobj [("toolCalls", jarr [jstr "probe"])]) = .ok (jarr [jstr "probe"]) ∧
    toolCallsOf (jobj [("toolCallList", jarr [jstr "probe"])]) = .ok (jarr [jstr "probe"]) :=
  ⟨c8_toolcall_lookup.1 (jfields [("toolCalls", jarr [jstr "probe"])]) (jarr [jstr "probe"]) rfl rfl,
   c8_toolcall_lookup.2.1 (jfields [("toolCallList", jarr [jstr "probe"])]) (jarr [jstr "probe"])
     rfl rfl rfl⟩

/-- C1 counterexample: the JSON-decodable request body `[]` (a top-level
array) makes both endpoints raise `AttributeError` — `payload.get` /
`args.get` on a `list` — instead of returning a structured result object, so
the exception propagates past the handler to the framework. -/
theorem c1_counterexample :
    send_specific_email (jarr []) = .error .attributeError ∧
    vapi_webhook (jarr []) = .error .attributeError := ⟨rfl, rfl⟩

/-- C1 (amended): both endpoints return a structured result for JSON object
payloads whose relevant nested fields have the conventional shapes — for the
mid-call endpoint, the effective arguments mapping is a `dict`; for the
webhook, the `message` value is a `dict` and either the payload is not an
end-of-call report or the customer/call/transcript fields reached by the
email hunt conform (`webhookShapesOk`).  Decodable bodies outside these
shapes (a top-level array, string, number or null, or a non-object in a
reached field) raise `AttributeError`/`TypeError` out of the handler;
undecodable bodies are caught at the `request.json()` boundary as the
structured `"Bad JSON"` failure. -/
theorem c1_structured_result :
    (∀ p, (argsSource p).isObj = true → ∃ r, send_specific_email p = .ok r) ∧
    (∀ fs mfs, (JFields.lookup fs "message").getD (.obj .nil) = .obj mfs →
      (pyEqStr (specMsgType fs mfs) "end-of-call-report" = false ∨
        webhookShapesOk fs mfs = true) →
      ∃ r, vapi_webhook (.obj fs) = .ok r) := by
  constructor
  · intro p hobj
    obtain ⟨g, hg⟩ := isObj_exists _ hobj
    unfold send_specific_email
    rw [hg]
    unfold resolveFromArgs
    by_cases ht : truthy ((JFields.lookup g "user_email").getD .null) = true <;>
      simp [pyGetN, pyGet, ok_bind, pure_eq_ok, ht]
  · intro fs mfs hm hc
    rw [vapi_webhook_obj fs mfs hm]
    by_cases hcls : pyEqStr (specMsgType fs mfs) "end-of-call-report" = true
    · rw [if_pos hcls]
      have hshapes : webhookShapesOk fs mfs = true := by
        cases hc with
        | inl h => rw [hcls] at h; cases h
        | inr h => exact h
      unfold webhookShapesOk at hshapes
      simp only [Bool.and_eq_true] at hshapes
      obtain ⟨⟨⟨h1, h2⟩, h3⟩, h4⟩ := hshapes
      cases hcallv : (JFields.lookup mfs "call").getD (.obj .nil) with
      | obj cfs =>
        rw [hcallv] at h3
        rw [emailSearch_eq fs mfs cfs hcallv]
        have hmem : ∀ q ∈ [(JFields.lookup mfs "customer").getD (.obj .nil),
            (JFields.lookup fs "customer").getD (.obj .nil),
            (JFields.lookup cfs "customer").getD (.obj .nil)], objOrFalsy q = true := by
          intro q hq
          simp only [List.mem_cons, List.not_mem_nil, or_false] at hq
          rcases hq with rfl | rfl | rfl
          · exact h1
          · exact h2
          · exact h3
        rw [customerLoop_spec _ hmem]
        have hscan : ∃ ro, pyScanText (specTranscript fs mfs) = .ok ro := by
          unfold pyScanText
          by_cases htr : truthy (specTranscript fs mfs) = true
          · unfold strOrFalsy at h4
            rw [htr] at h4
            simp only [Bool.not_true, Bool.or_false] at h4
            obtain ⟨ts, hts⟩ : ∃ s, specTranscript fs mfs = .str s := by
              cases hsp : specTranscript fs mfs <;> rw [hsp] at h4 <;>
                first | exact ⟨_, rfl⟩ | simp [JValue.isStr] at h4
            rw [hts, if_pos (by rw [← hts]; exact htr)]
            exact ⟨_, rfl⟩
          · rw [if_neg htr]
            exact ⟨none, rfl⟩
        obtain ⟨ro, hro⟩ := hscan
        rw [transcriptScan_eq fs mfs, hro]
        by_cases hue1 : truthy (jOfOpt (specFirstEmail
            [(JFields.lookup mfs "customer").getD (.obj .nil),
             (JFields.lookup fs "customer").getD (.obj .nil),
             (JFields.lookup cfs "customer").getD (.obj .nil)])) = true
        all_goals simp only [ok_bind, pure_eq_ok, hue1, if_true, if_false, Bool.false_eq_true]
        all_goals by_cases hue2 : truthy (optToJ ro) = true
        all_goals simp [ok_bind, pure_eq_ok, hue1, hue2]
        all_goals try split
        all_goals exact ⟨_, rfl⟩
      | null => rw [hcallv] at h3; cases h3
      | bool b => rw [hcallv] at h3; cases h3
      | num n => rw [hcallv] at h3; cases h3
      | str s => rw [hcallv] at h3; cases h3
      | arr xs => rw [hcallv] at h3; cases h3
    · rw [if_neg hcls, pure_eq_ok]
      exact ⟨_, rfl⟩

theorem c1_structured_result_witness :
    (∃ r, send_specific_email samplePayloadToolCall = .ok r) ∧
    (∃ r, vapi_webhook samplePayloadCustomer = .ok r) :=
  ⟨c1_structured_result.1 samplePayloadToolCall rfl,
   c1_structured_result.2
     (jfields [("message", jobj [("type", jstr "end-of-call-report"),
       ("customer", jobj [("email", jstr "c@d.com")])])])
     (jfields [("type", jstr "end-of-call-report"),
       ("customer", jobj [("email", jstr "c@d.com")])])
     rfl (Or.inr rfl)⟩

/-- C2: for a payload classified as an end-of-call report the webhook
searches the candidate customer objects — under `message`, then top-level,
then under `message.call` — in strict priority order, each accepted only when
its `email` field is non-empty (truthy), stopping at the first success
(`customerLoop` agrees with the declarative `specFirstEmail`); whenever the
priority search succeeds the result is sent to that address with no
transcript or whole-payload scan, and the §8 payload with
`message.customer.email = "c@d.com"` resolves to `c@d.com`. -/
theorem c2_priority_order :
    (∀ ps, (∀ p ∈ ps, objOrFalsy p = true) →
      customerLoop ps = .ok (jOfOpt (specFirstEmail ps))) ∧
    (∀ fs mfs cfs e,
      (JFields.lookup fs "message").getD (.obj .nil) = .obj mfs →
      pyEqStr (specMsgType fs mfs) "end-of-call-report" = true →
      (JFields.lookup mfs "call").getD (.obj .nil) = .obj cfs →
      (∀ p ∈ [(JFields.lookup mfs "customer").getD (.obj .nil),
              (JFields.lookup fs "customer").getD (.obj .nil),
              (JFields.lookup cfs "customer").getD (.obj .nil)], objOrFalsy p = true) →
      specFirstEmail [(JFields.lookup mfs "customer").getD (.obj .nil),
              (JFields.lookup fs "customer").getD (.obj .nil),
              (JFields.lookup cfs "customer").getD (.obj .nil)] = some e →
      vapi_webhook (.obj fs) = .ok (.sendFollowUp e)) ∧
    vapi_webhook samplePayloadCustomer = .ok (.sendFollowUp (jstr "c@d.com")) := by
  refine ⟨customerLoop_spec, ?_, rfl⟩
  intro fs mfs cfs e hm hcls hcall hmem hfe
  have hte := specFirstEmail_truthy _ e hfe
  rw [vapi_webhook_obj fs mfs hm, if_pos hcls, emailSearch_eq fs mfs cfs hcall,
      customerLoop_spec _ hmem, hfe]
  simp [jOfOpt, ok_bind, pure_eq_ok, hte]

theorem c2_priority_order_witness :
    vapi_webhook samplePayloadCustomer = .ok (.sendFollowUp (jstr "c@d.com")) :=
  c2_priority_order.2.1
    (jfields [("message", jobj [("type", jstr "end-of-call-report"),
      ("customer", jobj [("email", jstr "c@d.com")])])])
    (jfields [("type", jstr "end-of-call-report"),
      ("customer", jobj [("email", jstr "c@d.com")])])
    JFields.nil (jstr "c@d.com") rfl rfl rfl
    (by
      intro p hp
      simp only [List.mem_cons, List.not_mem_nil, or_false] at hp
      rcases hp with rfl | rfl | rfl <;> rfl)
    rfl

/-- C3: for an end-of-call payload in which no customer location yields a
non-empty email, the webhook scans the transcript string (taken from the
message object, then top-level) with `extract_email_from_text`, and when
that also yields nothing it scans the `json.dumps` serialization of the
entire payload; the transcript example resolves `jane_doe99@mail-host.io`
and a payload whose only email sits in unrelated metadata resolves that
email through the last-resort scan. -/
theorem c3_fallback_scans :
    (∀ fs mfs cfs ts,
      (JFields.lookup fs "message").getD (.obj .nil) = .obj mfs →
      pyEqStr (specMsgType fs mfs) "end-of-call-report" = true →
      (JFields.lookup mfs "call").getD (.obj .nil) = .obj cfs →
      (∀ p ∈ [(JFields.lookup mfs "customer").getD (.obj .nil),
              (JFields.lookup fs "customer").getD (.obj .nil),
              (JFields.lookup cfs "customer").getD (.obj .nil)], objOrFalsy p = true) →
      specFirstEmail [(JFields.lookup mfs "customer").getD (.obj .nil),
              (JFields.lookup fs "customer").getD (.obj .nil),
              (JFields.lookup cfs "customer").getD (.obj .nil)] = none →
      specTranscript fs mfs = .str ts →
      vapi_webhook (.obj fs) = .ok (
        match extract_email_from_text ts with
        | some e => .sendFollowUp (.str e)
        | none =>
          match extract_email_from_text (json_dumps (.obj fs)) with
          | some e => .sendFollowUp (.str e)
          | none => .noEmailFound)) ∧
    vapi_webhook samplePayloadTranscript
      = .ok (.sendFollowUp (jstr "jane_doe99@mail-host.io")) ∧
    vapi_webhook samplePayloadMetadata
      = .ok (.sendFollowUp (jstr "bob@example.com")) := by
  refine ⟨?_, rfl, rfl⟩
  intro fs mfs cfs ts hm hcls hcall hmem hfe hts
  rw [vapi_webhook_obj fs mfs hm, if_pos hcls, emailSearch_eq fs mfs cfs hcall,
      customerLoop_spec _ hmem, hfe, transcriptScan_eq fs mfs, hts]
  simp only [jOfOpt, ok_bind, show truthy JValue.null = false from rfl,
    Bool.false_eq_true, if_false]
  by_cases hts0 : ts = ""
  · subst hts0
    rw [show pyScanText (.str "") = .ok none from rfl]
    simp only [ok_bind, optToJ, pure_eq_ok, show truthy JValue.null = false from rfl,
      Bool.false_eq_true, if_false, show extract_email_from_text "" = none from rfl]
    cases hd : extract_email_from_text (json_dumps (.obj fs)) with
    | some e =>
      have he := extract_email_ne_empty _ _ hd
      simp [optToJ, truthy_str_of_ne _ he]
    | none => simp [optToJ, truthy]
  · rw [show pyScanText (.str ts) = .ok (extract_email_from_text ts) from by
      unfold pyScanText
      rw [if_pos (truthy_str_of_ne ts hts0)]]
    cases hx : extract_email_from_text ts with
    | some e =>
      have he := extract_email_ne_empty _ _ hx
      simp [ok_bind, optToJ, pure_eq_ok, truthy_str_of_ne _ he]
    | none =>
      simp only [ok_bind, optToJ, pure_eq_ok, show truthy JValue.null = false from rfl,
        Bool.false_eq_true, if_false]
      cases hd : extract_email_from_text (json_dumps (.obj fs)) with
      | some e =>
        have he := extract_email_ne_empty _ _ hd
        simp [optToJ, truthy_str_of_ne _ he]
      | none => simp [optToJ, truthy]

theorem c3_fallback_scans_witness :
    vapi_webhook samplePayloadTranscript
      = .ok (.sendFollowUp (jstr "jane_doe99@mail-host.io")) :=
  c3_fallback_scans.1
    (jfields [("message", jobj [("type", jstr "end-of-call-report"),
      ("transcript", jstr "Email me at jane_doe99@mail-host.io please")])])
    (jfields [("type", jstr "end-of-call-report"),
      ("transcript", jstr "Email me at jane_doe99@mail-host.io please")])
    JFields.nil "Email me at jane_doe99@mail-host.io please"
    rfl rfl rfl
    (by
      intro p hp
      simp only [List.mem_cons, List.not_mem_nil, or_false] at hp
      rcases hp with rfl | rfl | rfl <;> rfl)
    rfl rfl

/-- C6: `extract_email_from_text` returns absent on the empty string and on
any string with no substring matching the lenient pattern; on success it
returns the leftmost match — a substring of the declarative shape
`specEmailShape` starting at the earliest position admitting any such
match; every string with zero `@` occurrences yields absent; and the
documented example extracts `a.b+c@sub.example.co`. -/
theorem c6_email_extraction :
    extract_email_from_text "" = none ∧
    (∀ s : String, (∀ c ∈ s.toList, c ≠ '@') → extract_email_from_text s = none) ∧
    (∀ s r, extract_email_from_text s = some r →
      ∃ pre m post, s.toList = pre ++ (m ++ post) ∧ r = String.mk m ∧ specEmailShape m ∧
        ∀ pre' m' post', s.toList = pre' ++ (m' ++ post') → specEmailShape m' →
          pre.length ≤ pre'.length) ∧
    (∀ s : String, (∀ pre m post, s.toList = pre ++ (m ++ post) → ¬specEmailShape m) →
      extract_email_from_text s = none) ∧
    extract_email_from_text "contact me at a.b+c@sub.example.co or ignore"
      = some "a.b+c@sub.example.co" := by
  have hnone : ∀ s : String,
      (∀ pre m post, s.toList = pre ++ (m ++ post) → ¬specEmailShape m) →
      extract_email_from_text s = none := by
    intro s hno
    unfold extract_email_from_text
    by_cases hs : (s == "") = true
    · rw [if_pos hs]
    · rw [if_neg hs]
      cases hse : searchEmail s.toList with
      | none => rfl
      | some m =>
        obtain ⟨pre, post, hsplit, hshape, -⟩ := searchEmail_some _ _ hse
        exact absurd hshape (hno pre m post hsplit)
  refine ⟨rfl, ?_, ?_, hnone, rfl⟩
  · intro s hat
    refine hnone s ?_
    intro pre m post heq hshape
    obtain ⟨l, d, t, hm, -, -, -, -, -, -⟩ := hshape
    have h1 : '@' ∈ s.toList := by
      rw [heq, hm]; simp
    exact hat '@' h1 rfl
  · intro s r h
    unfold extract_email_from_text at h
    by_cases hs : (s == "") = true
    · rw [if_pos hs] at h; cases h
    · rw [if_neg hs] at h
      cases hse : searchEmail s.toList with
      | none => rw [hse] at h; cases h
      | some m =>
        rw [hse] at h
        rw [show (Option.map String.mk (some m)) = some (String.mk m) from rfl] at h
        injection h with h
        obtain ⟨pre, post, hsplit, hshape, hmin⟩ := searchEmail_some _ _ hse
        exact ⟨pre, m, post, hsplit, h.symm, hshape, hmin⟩

theorem c6_email_extraction_witness :
    extract_email_from_text "hello world" = none :=
  c6_email_extraction.2.1 "hello world" (by decide)

end VoiceAgent
